import Mathlib

set_option linter.unusedVariables false

namespace Bento

/-!
Shallow embedding of the journal/transaction layer (`journal.rs`), the
kernel-object wrapper drops (`kobj.rs`) and the `CStr` view (`kobj.rs`)
of the bento kernel library.  Host-kernel entry points (`ffi.rs`) return
statuses chosen by the environment; they appear here as explicit
parameters, together with a trace of the calls made across the
foreign-function boundary.
-/

/-- One call across the foreign-function boundary into the host kernel
journaling subsystem, together with `printk` output lines. -/
inductive HostCall where
  | printCall
  | journalInitDev
  | journalLoad
  | journalSetBarrier
  | journalSetAsyncCommit
  | journalStart
  | journalGetWriteAccess (blocknr : Nat)
  | journalGetCreateAccess (blocknr : Nat)
  | journalDirtyMetadata (blocknr : Nat)
  | journalStop
  deriving DecidableEq

/-- Modelled from the spec: the `BufferHead` wrapper used by `journal.rs`
is defined in a part of the repository outside the provided sources; the
spec describes it as a view of one block's cache entry carrying a numeric
block identifier, read by `bh.blocknr()`.  Only that identifier is
consulted by the journal layer, so the model carries exactly it
(`u64` widened to `Nat`). -/
structure BufferHead where
  blocknr : Nat
  deriving DecidableEq

/-- `Handle` from `journal.rs`: one open transaction.  `requested` is the
`u32` budget passed to `begin_op`; `blocks` is the `RefCell<Vec<u64>>` of
block identifiers registered so far, in push order.  The raw `handle_t`
pointer is not modelled. -/
structure Handle where
  requested : Nat
  blocks : List Nat
  deriving DecidableEq

/-- `Journal` from `journal.rs`: owns the raw `journal_t` pointer, which
carries no information relevant to the verified claims. -/
structure Journal where
  journal : Unit
  deriving DecidableEq

/-- `Handle::get_write_access` (journal.rs 107-115): if the buffer's block
identifier is already in `blocks`, return 0 without calling the host;
otherwise call `rs_jbd2_journal_get_write_access` and return its status
(`hostStatus`).  The result is the handle after the call, the returned
status and the trace of host calls made.  Note the `Vec` is only read,
never pushed. -/
def Handle.get_write_access (self : Handle) (hostStatus : Int) (bh : BufferHead) :
    Handle × Int × List HostCall :=
  if bh.blocknr ∈ self.blocks then
    (self, 0, [])
  else
    (self, hostStatus, [HostCall.journalGetWriteAccess bh.blocknr])

/-- `Handle::get_create_access` (journal.rs 117-125): identical shape to
`get_write_access`, delegating to `rs_jbd2_journal_get_create_access`. -/
def Handle.get_create_access (self : Handle) (hostStatus : Int) (bh : BufferHead) :
    Handle × Int × List HostCall :=
  if bh.blocknr ∈ self.blocks then
    (self, 0, [])
  else
    (self, hostStatus, [HostCall.journalGetCreateAccess bh.blocknr])

/-- `Handle::journal_write` (journal.rs 128-141): push the block number if
absent, print a warning when the vector now exceeds the requested budget,
then call `rs_jbd2_journal_dirty_metadata` and return its status. -/
def Handle.journal_write (self : Handle) (hostStatus : Int) (bh : BufferHead) :
    Handle × Int × List HostCall :=
  (⟨self.requested,
      if bh.blocknr ∈ self.blocks then self.blocks
      else self.blocks ++ [bh.blocknr]⟩,
    hostStatus,
    (if (if bh.blocknr ∈ self.blocks then self.blocks
         else self.blocks ++ [bh.blocknr]).length > self.requested then
       [HostCall.printCall]
     else []) ++ [HostCall.journalDirtyMetadata bh.blocknr])

/-- Outcome of `Drop for Handle`: either the drop glue returns normally or
the thread is stuck in an infinite loop. -/
inductive DropOutcome where
  | returns
  | halts
  deriving DecidableEq

/-- `impl Drop for Handle` (journal.rs 145-158): call
`rs_jbd2_journal_stop` once; on status 0 return silently, otherwise print
a message and enter an infinite loop, modelled by the outcome `halts`. -/
def Handle.drop (self : Handle) (stopStatus : Int) : DropOutcome × List HostCall :=
  if stopStatus = 0 then
    (DropOutcome.returns, [HostCall.journalStop])
  else
    (DropOutcome.halts, [HostCall.journalStop, HostCall.printCall])

/-- `Journal::new` (journal.rs 36-63).  `initNull` states whether
`rs_jbd2_journal_init_dev` returns a null pointer; `loadStatus` is the
status `rs_jbd2_journal_load` returns when reached.  The trace starts with
the `println` and the init call; the load, barrier and async-commit calls
appear exactly when the code reaches them. -/
def Journal.new (initNull : Bool) (loadStatus : Int) : Option Journal × List HostCall :=
  if initNull then
    (none, [HostCall.printCall, HostCall.journalInitDev])
  else if loadStatus ≠ 0 then
    (none, [HostCall.printCall, HostCall.journalInitDev, HostCall.journalLoad])
  else
    (some ⟨()⟩,
      [HostCall.printCall, HostCall.journalInitDev, HostCall.journalLoad,
       HostCall.journalSetBarrier, HostCall.journalSetAsyncCommit])

/-- `Journal::begin_op` (journal.rs 70-87): call `rs_jbd2_journal_start`;
a null handle makes the code panic with message "transaction begin
failed" (modelled as `Except.error` with that message), otherwise the new
`Handle` stores the requested budget and an empty block vector. -/
def Journal.begin_op (self : Journal) (startNull : Bool) (blocks : Nat) :
    Except String Handle × List HostCall :=
  if startNull then
    (Except.error "transaction begin failed", [HostCall.journalStart])
  else
    (Except.ok ⟨blocks, []⟩, [HostCall.journalStart])

/-- Run `get_write_access` once per buffer in the list, threading the
handle and accumulating the host-call trace; `host` chooses the status
the host returns for each block. -/
def runWriteAccesses : Handle → (Nat → Int) → List BufferHead → Handle × List HostCall
  | self, _, [] => (self, [])
  | self, host, bh :: rest =>
      ((runWriteAccesses (self.get_write_access (host bh.blocknr) bh).1 host rest).1,
        (self.get_write_access (host bh.blocknr) bh).2.2 ++
          (runWriteAccesses (self.get_write_access (host bh.blocknr) bh).1 host rest).2)

/-- Run `journal_write` once per block number in the list, threading the
handle and accumulating the host-call trace. -/
def runJournalWrites : Handle → (Nat → Int) → List Nat → Handle × List HostCall
  | self, _, [] => (self, [])
  | self, host, b :: rest =>
      ((runJournalWrites (self.journal_write (host b) ⟨b⟩).1 host rest).1,
        (self.journal_write (host b) ⟨b⟩).2.2 ++
          (runJournalWrites (self.journal_write (host b) ⟨b⟩).1 host rest).2)

/-! ## Foreign object wrapper layer: acquire/release accounting -/

/-- One event at the foreign-function boundary relevant to handle
acquisition and release accounting. -/
inductive FfiEvent where
  | sbBread
  | brelse
  | getSemaphore
  | putSemaphore
  deriving DecidableEq

/-- `impl Drop for RsBufferHead` (kobj.rs 43-47): the drop glue calls
`self.brelse()`, that is the host `__brelse`. -/
def rsBufferHeadDrop : List FfiEvent := [FfiEvent.brelse]

/-- `impl Drop for RsRwSemaphore` (kobj.rs 49-53): the drop glue calls
`self.put()`, that is the host `rs_put_semaphore`. -/
def rsRwSemaphoreDrop : List FfiEvent := [FfiEvent.putSemaphore]

/-- Client programs over the wrapper layer.  `withBufferHead body`
acquires one `RsBufferHead` through `rs_sb_bread`, runs `body` in its
scope, and the handle is dropped when the scope exits, on the normal and
on the error path alike.  `withBufferHeadClone` additionally clones the
handle inside the scope — `def_kernel_obj_type` (ffi.rs 33-47) derives
`Clone`, which copies the raw pointer — so two handles are dropped at
scope exit.  `err` is an operation that fails, aborting the rest of a
`seq`. -/
inductive Prog where
  | skip
  | err
  | seq (p q : Prog)
  | withBufferHead (body : Prog)
  | withSemaphore (body : Prog)
  | withBufferHeadClone (body : Prog)

/-- Trace semantics of client programs: result is whether the program
succeeded, together with the boundary events emitted.  Scope exits emit
the drop glue from kobj.rs on every path. -/
def Prog.run : Prog → Bool × List FfiEvent
  | Prog.skip => (true, [])
  | Prog.err => (false, [])
  | Prog.seq p q =>
      if (Prog.run p).1 then
        ((Prog.run q).1, (Prog.run p).2 ++ (Prog.run q).2)
      else
        (false, (Prog.run p).2)
  | Prog.withBufferHead body =>
      ((Prog.run body).1, FfiEvent.sbBread :: ((Prog.run body).2 ++ rsBufferHeadDrop))
  | Prog.withSemaphore body =>
      ((Prog.run body).1, FfiEvent.getSemaphore :: ((Prog.run body).2 ++ rsRwSemaphoreDrop))
  | Prog.withBufferHeadClone body =>
      ((Prog.run body).1,
        FfiEvent.sbBread :: ((Prog.run body).2 ++ (rsBufferHeadDrop ++ rsBufferHeadDrop)))

/-- Clone-free programs: no `withBufferHeadClone` scope. -/
def Prog.cloneFree : Prog → Bool
  | Prog.skip => true
  | Prog.err => true
  | Prog.seq p q => p.cloneFree && q.cloneFree
  | Prog.withBufferHead body => body.cloneFree
  | Prog.withSemaphore body => body.cloneFree
  | Prog.withBufferHeadClone _ => false

/-- In the absence of cloning, scoped acquisition balances every acquire
with exactly one release, on normal and error paths alike. -/
lemma cloneFree_release_balanced (p : Prog) (h : p.cloneFree = true) :
    p.run.2.count FfiEvent.sbBread = p.run.2.count FfiEvent.brelse ∧
    p.run.2.count FfiEvent.getSemaphore = p.run.2.count FfiEvent.putSemaphore := by
  induction p with
  | skip => simp [Prog.run]
  | err => simp [Prog.run]
  | seq p q ihp ihq =>
      simp only [Prog.cloneFree, Bool.and_eq_true] at h
      obtain ⟨hp, hq⟩ := h
      by_cases hr : (Prog.run p).1 <;>
        simp [Prog.run, hr, List.count_append, (ihp hp).1, (ihp hp).2,
          (ihq hq).1, (ihq hq).2]
  | withBufferHead body ih =>
      simp only [Prog.cloneFree] at h
      simp [Prog.run, rsBufferHeadDrop, List.count_append, List.count_cons,
        (ih h).1, (ih h).2]
  | withSemaphore body ih =>
      simp only [Prog.cloneFree] at h
      simp [Prog.run, rsRwSemaphoreDrop, List.count_append, List.count_cons,
        (ih h).1, (ih h).2]
  | withBufferHeadClone body ih =>
      simp [Prog.cloneFree] at h

/-! ## Claim theorems: journal layer -/

/-- C1, counterexample: on a fresh `Handle` with budget 3, calling
`get_write_access` twice for block 5 performs two underlying
`rs_jbd2_journal_get_write_access` requests, not exactly one — the first
call does not record the block identifier on the `Handle`. -/
theorem c1_counterexample :
    ((runWriteAccesses ⟨3, []⟩ (fun _ => 0) [⟨5⟩, ⟨5⟩]).2.count
        (HostCall.journalGetWriteAccess 5) = 2) ∧
    ¬ ((runWriteAccesses ⟨3, []⟩ (fun _ => 0) [⟨5⟩, ⟨5⟩]).2.count
        (HostCall.journalGetWriteAccess 5) = 1) := by
  decide

/-- C1, amended: two consecutive `get_write_access` calls for the same
block identifier perform two underlying host access requests when the
identifier is not registered on the `Handle` and zero when it is; the
identifier is recorded only by `journal_write`, after which both calls
are no-ops returning status 0. -/
theorem c1_amended (r : Nat) (bs : List Nat) (host : Nat → Int) (s : Int) (b : Nat) :
    ((runWriteAccesses ⟨r, bs⟩ host [⟨b⟩, ⟨b⟩]).2.count
        (HostCall.journalGetWriteAccess b) = if b ∈ bs then 0 else 2) ∧
    ((runWriteAccesses (Handle.journal_write ⟨r, bs⟩ s ⟨b⟩).1 host [⟨b⟩, ⟨b⟩]).2 = []) ∧
    (((Handle.journal_write ⟨r, bs⟩ s ⟨b⟩).1.get_write_access (host b) ⟨b⟩).2.1 = 0) := by
  by_cases hb : b ∈ bs <;>
    simp [runWriteAccesses, Handle.get_write_access, Handle.journal_write, hb]

/-- C2: the registered-block set is read but never modified by
`get_write_access` and `get_create_access`; `journal_write` registers the
block identifier, and only after that does the identifier deduplicate a
later `get_write_access` (no host call, status 0). -/
theorem c2_frame (self : Handle) (s t : Int) (bh : BufferHead) :
    ((self.get_write_access s bh).1 = self) ∧
    ((self.get_create_access s bh).1 = self) ∧
    (bh.blocknr ∈ (self.journal_write s bh).1.blocks) ∧
    (((self.journal_write s bh).1.get_write_access t bh).2.2 = [] ∧
      ((self.journal_write s bh).1.get_write_access t bh).2.1 = 0) := by
  by_cases hb : bh.blocknr ∈ self.blocks <;>
    simp [Handle.get_write_access, Handle.get_create_access, Handle.journal_write, hb]

/-- C4: `journal_write` never fails on a budget violation: whatever the
size of the registered set, it makes exactly one
`rs_jbd2_journal_dirty_metadata` call and returns the host status
unchanged, the budget is untouched, and the over-budget condition shows
up only as a printed report. -/
theorem c4_budget_advisory (self : Handle) (s : Int) (bh : BufferHead) :
    ((self.journal_write s bh).2.1 = s) ∧
    ((self.journal_write s bh).2.2.count (HostCall.journalDirtyMetadata bh.blocknr) = 1) ∧
    ((self.journal_write s bh).1.requested = self.requested) ∧
    ((self.journal_write s bh).2.2.count HostCall.printCall =
      if (self.journal_write s bh).1.blocks.length > self.requested then 1 else 0) := by
  by_cases hb : bh.blocknr ∈ self.blocks <;>
    simp [Handle.journal_write, hb] <;> split <;> simp_all

/-- Membership in the tracked set after a sequence of `journal_write`
calls: exactly the initial members plus the written block numbers. -/
lemma runJournalWrites_mem (bs : List Nat) :
    ∀ (self : Handle) (host : Nat → Int) (b : Nat),
      b ∈ (runJournalWrites self host bs).1.blocks ↔ b ∈ self.blocks ∨ b ∈ bs := by
  induction bs with
  | nil => intro self host b; simp [runJournalWrites]
  | cons x rest ih =>
      intro self host b
      by_cases hx : x ∈ self.blocks
      · rw [show (runJournalWrites self host (x :: rest)).1 =
            (runJournalWrites (self.journal_write (host x) ⟨x⟩).1 host rest).1 from rfl]
        rw [ih]
        simp only [Handle.journal_write, hx, if_pos, List.mem_cons]
        constructor
        · rintro (h | h)
          · exact Or.inl h
          · exact Or.inr (Or.inr h)
        · rintro (h | h | h)
          · exact Or.inl h
          · exact Or.inl (h ▸ hx)
          · exact Or.inr h
      · rw [show (runJournalWrites self host (x :: rest)).1 =
            (runJournalWrites (self.journal_write (host x) ⟨x⟩).1 host rest).1 from rfl]
        rw [ih]
        simp only [Handle.journal_write, hx, if_neg, List.mem_cons, List.mem_append,
          List.mem_singleton, not_false_iff]
        tauto

/-- A sequence of `journal_write` calls preserves duplicate-freedom of the
tracked set. -/
lemma runJournalWrites_nodup (bs : List Nat) :
    ∀ (self : Handle) (host : Nat → Int), self.blocks.Nodup →
      (runJournalWrites self host bs).1.blocks.Nodup := by
  induction bs with
  | nil => intro self host h; simpa [runJournalWrites] using h
  | cons x rest ih =>
      intro self host h
      rw [show (runJournalWrites self host (x :: rest)).1 =
          (runJournalWrites (self.journal_write (host x) ⟨x⟩).1 host rest).1 from rfl]
      apply ih
      by_cases hx : x ∈ self.blocks
      · simpa [Handle.journal_write, hx] using h
      · simp [Handle.journal_write, hx, List.nodup_append, h]

/-- C5: `journal_write` records the block identifier only if absent;
starting from an empty set, writing blocks 5, 5, 7 leaves exactly the
tracked identifiers 5 and 7, and in general the tracked set after any
sequence of writes is duplicate-free and holds exactly the written
identifiers. -/
theorem c5_dedup_tracking :
    (∀ (self : Handle) (s : Int) (bh : BufferHead),
        (self.journal_write s bh).1.blocks =
          if bh.blocknr ∈ self.blocks then self.blocks
          else self.blocks ++ [bh.blocknr]) ∧
    (∀ (r : Nat) (host : Nat → Int),
        (runJournalWrites ⟨r, []⟩ host [5, 5, 7]).1.blocks = [5, 7]) ∧
    (∀ (r : Nat) (host : Nat → Int) (bs : List Nat),
        (runJournalWrites ⟨r, []⟩ host bs).1.blocks.Nodup ∧
        ∀ b, b ∈ (runJournalWrites ⟨r, []⟩ host bs).1.blocks ↔ b ∈ bs) := by
  refine ⟨fun self s bh => rfl, ?_, ?_⟩
  · intro r host
    simp [runJournalWrites, Handle.journal_write]
  · intro r host bs
    refine ⟨runJournalWrites_nodup bs ⟨r, []⟩ host (by simp), ?_⟩
    intro b
    rw [runJournalWrites_mem bs ⟨r, []⟩ host b]
    simp

/-- C6: `Drop for Handle` calls `rs_jbd2_journal_stop` exactly once; it
returns silently precisely when the status is zero and halts the thread
in an infinite loop precisely when the status is nonzero. -/
theorem c6_drop_behavior (self : Handle) (s : Int) :
    ((self.drop s).2.count HostCall.journalStop = 1) ∧
    ((self.drop s).1 = DropOutcome.returns ↔ s = 0) ∧
    ((self.drop s).1 = DropOutcome.halts ↔ s ≠ 0) := by
  by_cases h : s = 0 <;> simp [Handle.drop, h]

/-- C8: `Journal::new` returns `none` exactly when the init call returns
null or the load call returns a nonzero status; on the successful path,
and only then, the barrier and async-commit modes are each enabled once
before the constructor returns. -/
theorem c8_journal_new_spec (initNull : Bool) (loadStatus : Int) :
    (((Journal.new initNull loadStatus).1 = none) ↔ (initNull = true ∨ loadStatus ≠ 0)) ∧
    ((Journal.new initNull loadStatus).2.count HostCall.journalSetBarrier =
      if (Journal.new initNull loadStatus).1.isSome then 1 else 0) ∧
    ((Journal.new initNull loadStatus).2.count HostCall.journalSetAsyncCommit =
      if (Journal.new initNull loadStatus).1.isSome then 1 else 0) := by
  cases initNull <;> by_cases h : loadStatus = 0 <;>
    simp [Journal.new, h]

/-- C9: `Journal::begin_op` hands back, when the host starts a
transaction, a `Handle` whose budget equals the argument and whose
registered set is empty; when the host refuses (null handle), the
operation fails with the panic message rather than proceeding; the host
start call is made exactly once either way. -/
theorem c9_begin_op_spec (j : Journal) (blocks : Nat) :
    ((j.begin_op false blocks).1 = Except.ok ⟨blocks, []⟩) ∧
    ((j.begin_op true blocks).1 = Except.error "transaction begin failed") ∧
    (∀ startNull, (j.begin_op startNull blocks).2.count HostCall.journalStart = 1) := by
  refine ⟨rfl, rfl, ?_⟩
  intro startNull
  cases startNull <;> simp [Journal.begin_op]

/-- C3 (code_bug): `def_kernel_obj_type` derives `Clone` for
`RsBufferHead` while its `Drop` calls `__brelse`, so the program that
acquires one buffer, clones the handle and lets both drop performs one
acquire but two releases — acquire and release counts differ. -/
theorem c3_clone_double_release :
    ((Prog.withBufferHeadClone Prog.skip).run.2.count FfiEvent.sbBread = 1) ∧
    ((Prog.withBufferHeadClone Prog.skip).run.2.count FfiEvent.brelse = 2) ∧
    ((Prog.withBufferHeadClone Prog.skip).run.2.count FfiEvent.sbBread ≠
      (Prog.withBufferHeadClone Prog.skip).run.2.count FfiEvent.brelse) := by
  decide

/-! ## CStr: null-terminated byte string views (kobj.rs) -/

/-- Kernel error kind used by `CStr::from_bytes_with_nul`; only the I/O
error is relevant to this layer. -/
inductive Error where
  | EIO
  deriving DecidableEq

/-- A `CStr` (kobj.rs 75-77) stores a raw pointer into externally owned
memory; the model stores the byte sequence that pointer gives access to
(`u8` values widened to `Nat`).  Memory past the backing sequence is not
modelled: every `CStr` produced by `from_bytes_with_nul` contains its
null terminator, so the length scan never runs past the end. -/
structure CStr where
  inner : List Nat
  deriving DecidableEq

/-- The first-null scan of `CStr::from_bytes_with_nul` (kobj.rs
107-113): position of the first null byte, if any. -/
def nulPos : List Nat → Option Nat
  | [] => none
  | b :: rest => if b = 0 then some 0 else (nulPos rest).map (fun p => p + 1)

/-- `CStr::len` (kobj.rs 86-96): walk from the pointer, counting bytes
until the first null byte. -/
def cStrLen : List Nat → Nat
  | [] => 0
  | b :: rest => if b = 0 then 0 else cStrLen rest + 1

/-- `CStr::len` on the wrapper. -/
def CStr.len (self : CStr) : Nat := cStrLen self.inner

/-- `CStr::to_bytes_with_nul` (kobj.rs 99-101): the slice
`from_raw_parts(self.inner, self.len())`, i.e. the first `len` bytes
from the pointer. -/
def CStr.to_bytes_with_nul (self : CStr) : List Nat := self.inner.take self.len

/-- `CStr::from_bytes_with_nul` (kobj.rs 106-124): find the first null
byte; fail with the I/O error when there is none or when it is not at
the final position; otherwise wrap the byte sequence. -/
def CStr.from_bytes_with_nul (bytes : List Nat) : Except Error CStr :=
  match nulPos bytes with
  | some p =>
      if p + 1 ≠ bytes.length then Except.error Error.EIO
      else Except.ok ⟨bytes⟩
  | none => Except.error Error.EIO

/-- The length scan stops exactly at the first null position. -/
lemma cStrLen_eq_of_nulPos (bytes : List Nat) :
    ∀ p, nulPos bytes = some p → cStrLen bytes = p := by
  induction bytes with
  | nil => intro p h; simp [nulPos] at h
  | cons b rest ih =>
      intro p h
      by_cases hb : b = 0
      · simp [nulPos, hb] at h
        simp [cStrLen, hb, ← h]
      · simp only [nulPos, hb, if_false, Option.map_eq_some'] at h
        obtain ⟨q, hq, hqp⟩ := h
        simp [cStrLen, hb, ih q hq, ← hqp]

/-- No null byte occurs strictly before the first null position. -/
lemma zero_not_mem_take_of_nulPos (bytes : List Nat) :
    ∀ p, nulPos bytes = some p → (0 : Nat) ∉ bytes.take p := by
  induction bytes with
  | nil => intro p h; simp [nulPos] at h
  | cons b rest ih =>
      intro p h
      by_cases hb : b = 0
      · simp [nulPos, hb] at h
        simp [← h]
      · simp only [nulPos, hb, if_false, Option.map_eq_some'] at h
        obtain ⟨q, hq, hqp⟩ := h
        subst hqp
        intro hmem
        rw [List.take_succ_cons] at hmem
        rcases List.mem_cons.mp hmem with h0 | h0
        · exact hb h0.symm
        · exact ih q hq h0

/-- The first null byte sits at the final position exactly when the
sequence is nonempty, ends in a null byte and has no null byte earlier. -/
lemma nulPos_last_iff (bytes : List Nat) :
    (∃ p, nulPos bytes = some p ∧ p + 1 = bytes.length) ↔
      (bytes ≠ [] ∧ bytes.getLast? = some 0 ∧ (0 : Nat) ∉ bytes.dropLast) := by
  induction bytes with
  | nil => simp [nulPos]
  | cons b rest ih =>
      by_cases hb : b = 0
      · subst hb
        cases rest with
        | nil => simp [nulPos]
        | cons c cs =>
            constructor
            · rintro ⟨p, hp, hlen⟩
              simp [nulPos] at hp
              simp [← hp] at hlen
            · rintro ⟨-, -, hnm⟩
              exfalso
              apply hnm
              rw [show ((0 : Nat) :: c :: cs).dropLast = 0 :: (c :: cs).dropLast from rfl]
              exact List.mem_cons_self 0 _
      · cases rest with
        | nil =>
            constructor
            · rintro ⟨p, hp, hlen⟩
              simp [nulPos, hb] at hp
            · rintro ⟨-, hlast, -⟩
              simp at hlast
              exact absurd hlast hb
        | cons c cs =>
            constructor
            · rintro ⟨p, hp, hlen⟩
              simp only [nulPos, hb, if_false, Option.map_eq_some'] at hp
              obtain ⟨q, hq, hqp⟩ := hp
              have hqlen : q + 1 = (c :: cs).length := by
                simp only [List.length_cons] at hlen ⊢
                omega
              have hr := ih.mp ⟨q, hq, hqlen⟩
              refine ⟨by simp, ?_, ?_⟩
              · rw [List.getLast?_cons_cons]
                exact hr.2.1
              · rw [show (b :: c :: cs).dropLast = b :: (c :: cs).dropLast from rfl]
                intro hmem
                rcases List.mem_cons.mp hmem with h0 | h0
                · exact hb h0.symm
                · exact hr.2.2 h0
            · rintro ⟨-, hlast, hnm⟩
              rw [List.getLast?_cons_cons] at hlast
              have hnm' : (0 : Nat) ∉ (c :: cs).dropLast := by
                intro h0
                apply hnm
                rw [show (b :: c :: cs).dropLast = b :: (c :: cs).dropLast from rfl]
                exact List.mem_cons_of_mem _ h0
              obtain ⟨q, hq, hqlen⟩ := ih.mpr ⟨by simp, hlast, hnm'⟩
              refine ⟨q + 1, ?_, ?_⟩
              · rw [show nulPos (b :: c :: cs) =
                    if b = 0 then some 0
                    else (nulPos (c :: cs)).map (fun p => p + 1) from rfl,
                  if_neg hb, hq]
                rfl
              · simp only [List.length_cons] at hqlen ⊢
                omega

/-- C7: `CStr::from_bytes_with_nul` succeeds exactly when the first null
byte of the sequence sits at the final position, failing with the I/O
error otherwise; in particular the bytes of "hello" with a terminator
succeed with length 5, while a misplaced or missing terminator fails. -/
theorem c7_from_bytes_with_nul_spec :
    (∀ bytes : List Nat,
        ((∃ c, CStr.from_bytes_with_nul bytes = Except.ok c) ↔
          (bytes ≠ [] ∧ bytes.getLast? = some 0 ∧ (0 : Nat) ∉ bytes.dropLast)) ∧
        (CStr.from_bytes_with_nul bytes = Except.ok ⟨bytes⟩ ∨
          CStr.from_bytes_with_nul bytes = Except.error Error.EIO)) ∧
    (CStr.from_bytes_with_nul [104, 101, 108, 108, 111, 0] =
      Except.ok ⟨[104, 101, 108, 108, 111, 0]⟩) ∧
    (CStr.len ⟨[104, 101, 108, 108, 111, 0]⟩ = 5) ∧
    (CStr.from_bytes_with_nul [104, 101, 0, 108, 0] = Except.error Error.EIO) ∧
    (CStr.from_bytes_with_nul [104, 101, 108, 108, 111] = Except.error Error.EIO) := by
  refine ⟨?_, by rfl, by rfl, by rfl, by rfl⟩
  intro bytes
  constructor
  · rw [← nulPos_last_iff bytes]
    unfold CStr.from_bytes_with_nul
    cases hn : nulPos bytes with
    | none => simp
    | some p =>
        by_cases hp : p + 1 = bytes.length <;> simp [hp]
  · unfold CStr.from_bytes_with_nul
    cases hn : nulPos bytes with
    | none => simp
    | some p =>
        by_cases hp : p + 1 = bytes.length <;> simp [hp]

/-- C10: on every `CStr` accepted by `from_bytes_with_nul`, the slice
returned by `to_bytes_with_nul` has exactly `len` bytes — the bytes
strictly before the null terminator — so, despite its name, it leaves the
terminator out. -/
theorem c10_to_bytes_excludes_nul (bytes : List Nat) (c : CStr)
    (h : CStr.from_bytes_with_nul bytes = Except.ok c) :
    c.to_bytes_with_nul.length = c.len ∧
    c.to_bytes_with_nul = bytes.dropLast ∧
    (0 : Nat) ∉ c.to_bytes_with_nul := by
  unfold CStr.from_bytes_with_nul at h
  split at h
  next p hn =>
    split at h
    next => exact absurd h (by simp)
    next hp =>
      have hplen : p + 1 = bytes.length := not_not.mp hp
      injection h with h2
      subst h2
      have hlen : CStr.len ⟨bytes⟩ = p := cStrLen_eq_of_nulPos bytes p hn
      have htake : CStr.to_bytes_with_nul ⟨bytes⟩ = bytes.take p := by
        simp [CStr.to_bytes_with_nul, hlen]
      refine ⟨?_, ?_, ?_⟩
      · rw [htake, hlen, List.length_take]
        omega
      · rw [htake, List.dropLast_eq_take]
        congr 1
        omega
      · rw [htake]
        exact zero_not_mem_take_of_nulPos bytes p hn
  next hn => exact absurd h (by simp)

/-- C10, witness: the "hello" view with terminator, checked concretely. -/
theorem c10_witness :
    (CStr.mk [104, 101, 108, 108, 111, 0]).to_bytes_with_nul.length =
      (CStr.mk [104, 101, 108, 108, 111, 0]).len ∧
    (CStr.mk [104, 101, 108, 108, 111, 0]).to_bytes_with_nul =
      ([104, 101, 108, 108, 111, 0] : List Nat).dropLast ∧
    (0 : Nat) ∉ (CStr.mk [104, 101, 108, 108, 111, 0]).to_bytes_with_nul :=
  c10_to_bytes_excludes_nul [104, 101, 108, 108, 111, 0]
    ⟨[104, 101, 108, 108, 111, 0]⟩ (by rfl)

end Bento
